import Mathlib

/-!
Verification development for the wake/woke repository core:
the solc standard-JSON input protocol model (`wake/compiler/solc_frontend/input_data_model.py`),
the solc version manager (`wake/svm`, exercised by `tests/test_svm.py`),
the AST IR statement layer (`woke/ast/ir/statement/revert_statement.py`)
and the SARIF report generation (`woke/detectors/utils.py`).

Shallow embedding: Python functions become Lean functions; pydantic model
construction becomes an explicit validation function returning `Except`;
the stateful version manager becomes explicit state passing.
-/

namespace Wake

/-! ## Protocol model: `SolcInputSource` (input_data_model.py) -/

/-- The `SolcInputSource` pydantic model's declared fields
(`keccak256`, `content`, `urls`), all optional in the schema. -/
structure SolcInputSource where
  keccak256 : Option String
  content : Option String
  urls : Option (List String)
deriving DecidableEq

/-- The `content_or_urls_set` model validator (mode "before"):
`assert (content is None) != (urls is None)`. -/
def content_or_urls_set (content : Option String) (urls : Option (List String)) : Bool :=
  content.isNone != urls.isNone

/-- Constructing a `SolcInputSource`: pydantic runs the before-validator on the
raw values and fails construction when the assertion fails. No compiler process
is involved at this point; this is pure request validation. -/
def mkSolcInputSource (keccak256 : Option String) (content : Option String)
    (urls : Option (List String)) : Except String SolcInputSource :=
  if content_or_urls_set content urls then
    .ok ⟨keccak256, content, urls⟩
  else
    .error "SolcInputSource: exactly one of content, urls must be set"

/-! ## Protocol model: wire field naming (`_to_camel` and explicit aliases) -/

/-- Python's `s.split(sep)` (single-character separator) on a character list:
splits at every separator, keeping empty words (the result is non-empty). -/
def splitOnChar (sep : Char) : List Char → List (List Char)
  | [] => [[]]
  | c :: rest =>
    let r := splitOnChar sep rest
    if c = sep then [] :: r
    else
      match r with
      | [] => [[c]]
      | w :: ws => (c :: w) :: ws

/-- Python's `str.capitalize()`: first character upper-cased, the rest lower-cased. -/
def pyCapitalize (w : List Char) : List Char :=
  match w with
  | [] => []
  | c :: cs => c.toUpper :: cs.map Char.toLower

/-- `_to_camel` from input_data_model.py:
split on underscores, lower-case the first word, `capitalize()` the rest, join. -/
def to_camel (s : String) : String :=
  match splitOnChar '_' s.toList with
  | [] => ""
  | w :: ws => String.mk (w.map Char.toLower ++ (ws.map pyCapitalize).flatten)

/-- A pydantic field: its internal (snake_case) name together with an explicit
alias when the source declares one via `Field(..., alias=...)`. -/
def wireName : String × Option String → String
  | (_, some a) => a
  | (n, none) => to_camel n

/-- All fields of the SolcInput model hierarchy, as declared in
input_data_model.py, with their explicit aliases where present
(`via_IR` → `viaIR`, `append_CBOR` → `appendCBOR`; everything else relies on
the `alias_generator=_to_camel` of `SolcInputModel`). -/
def allSolcInputFields : List (String × Option String) :=
  [ ("keccak256", none), ("content", none), ("urls", none),
    ("stack_allocation", none), ("optimizer_steps", none),
    ("peephole", none), ("inliner", none), ("jumpdest_remover", none),
    ("order_literals", none), ("deduplicate", none), ("cse", none),
    ("constant_optimizer", none),
    ("simple_counter_for_loop_unchecked_increment", none),
    ("yul", none), ("yul_details", none),
    ("enabled", none), ("runs", none), ("details", none),
    ("revert_strings", none), ("debug_info", none),
    ("append_CBOR", some "appendCBOR"), ("use_literal_content", none),
    ("bytecode_hash", none),
    ("contracts", none), ("div_mod_with_slacks", none), ("engine", none),
    ("invariants", none), ("show_unproved", none), ("solvers", none),
    ("targets", none), ("timeout", none),
    ("stop_after", none), ("remappings", none), ("optimizer", none),
    ("evm_version", none), ("via_IR", some "viaIR"), ("debug", none),
    ("metadata", none), ("libraries", none), ("output_selection", none),
    ("model_checker", none),
    ("language", none), ("sources", none), ("settings", none) ]

/-! ## SARIF generation (`woke/detectors/utils.py`) -/

/-- Modelled from the spec: the `DetectionImpact` enumeration of the
detector API (`woke/detectors/api.py`, absent from src/); its members are the
five keys of the `impact_to_level` mapping in `create_sarif_log`
(src/woke/detectors/utils.py). -/
inductive DetectionImpact where
  | high
  | medium
  | low
  | warning
  | info
deriving DecidableEq

/-- The `impact_to_level` dictionary from `create_sarif_log`. -/
def impact_to_level : DetectionImpact → String
  | .high => "error"
  | .medium => "error"
  | .low => "error"
  | .warning => "warning"
  | .info => "note"

/-- The part of a `DetectorResult` that `create_sarif_log` reads to produce a
SARIF `Result`'s level: its impact (plus a message, carried along). -/
structure SarifResultInput where
  impact : DetectionImpact
  message : String
deriving DecidableEq

/-- The results loop of `create_sarif_log`: for every detection of every
detector, one SARIF result whose `level` is `impact_to_level[result.impact]`.
We keep the originating input next to the emitted level. -/
def createSarifResults (detections : List (String × List SarifResultInput)) :
    List (SarifResultInput × String) :=
  (detections.map (fun d => d.2.map (fun r => (r, impact_to_level r.impact)))).flatten

/-! ## Version manager (`wake/svm`, spec §4.1, exercised by tests/test_svm.py) -/

/-- Modelled from the spec: `CompilerVersion`, an immutable, totally ordered
semantic-version value (the `SolcVersionManager` implementation is absent from
src/; only its tests are present). -/
structure Version where
  major : Nat
  minor : Nat
  patch : Nat
deriving DecidableEq

/-- Strict lexicographic order on versions (total order of §3). -/
def Version.lt (a b : Version) : Bool :=
  Nat.blt a.major b.major ||
    (a.major == b.major &&
      (Nat.blt a.minor b.minor || (a.minor == b.minor && Nat.blt a.patch b.patch)))

/-- Decimal value of a digit character, if it is one. -/
def digitVal (c : Char) : Option Nat :=
  if c.isDigit then some (c.toNat - 48) else none

/-- Parse a non-empty all-digit word as a natural number. -/
def parseNatDigits (cs : List Char) : Option Nat :=
  match cs with
  | [] => none
  | _ => (cs.mapM digitVal).map (fun ds => ds.foldl (fun a d => 10 * a + d) 0)

/-- Modelled from the spec: parsing a requested version string as a
major.minor.patch semantic version; an unparsable string (e.g. "0.8.a")
yields no version and must fail `InvalidVersion`. -/
def parseVersion (s : String) : Option Version :=
  match (splitOnChar '.' s.toList).mapM parseNatDigits with
  | some [a, b, c] => some ⟨a, b, c⟩
  | _ => none

/-- The error taxonomy of spec §7 relevant to the version manager. -/
inductive SvmError where
  | UnsupportedVersion
  | InvalidVersion
  | NotInstalled
deriving DecidableEq

/-- Modelled from the spec: the observable state of one `SolcVersionManager`
instance — the supported inclusive range [min, max] published by the version
catalog, the cached available list and the installed set (filesystem-backed,
here a duplicate-free list). -/
structure SvmState where
  minVersion : Version
  maxVersion : Version
  available : List Version
  installed : List Version
deriving DecidableEq

/-- `list_installed()`: reflects the local install root exactly. -/
def listInstalled (st : SvmState) : List Version :=
  st.installed

/-- Modelled from the spec: `install(version)` — fails `InvalidVersion` if the
string does not parse, `UnsupportedVersion` if outside [min, max] (no network
call), is a no-op success if already installed, otherwise publishes the
artifact into the install root. Returns the state after the call together
with the error, if any (a failed call leaves the state untouched). -/
def install (st : SvmState) (s : String) : SvmState × Option SvmError :=
  match parseVersion s with
  | none => (st, some .InvalidVersion)
  | some v =>
    if Version.lt v st.minVersion || Version.lt st.maxVersion v then
      (st, some .UnsupportedVersion)
    else if v ∈ st.installed then
      (st, none)
    else
      ({ st with installed := v :: st.installed }, none)

/-- Modelled from the spec: `remove(version)` — fails with a not-installed
error if absent, otherwise deletes the artifact. -/
def remove (st : SvmState) (s : String) : SvmState × Option SvmError :=
  match parseVersion s with
  | none => (st, some .InvalidVersion)
  | some v =>
    if v ∈ st.installed then
      ({ st with installed := st.installed.erase v }, none)
    else
      (st, some .NotInstalled)

/-- Version rendered back as a string (installed artifacts are named by
version string, spec §6). -/
def versionString (v : Version) : String :=
  toString v.major ++ "." ++ toString v.minor ++ "." ++ toString v.patch

/-- Modelled from the spec: `get_path(version)` — fails `UnsupportedVersion` /
`InvalidVersion` per the same rules as install, and the distinct `NotInstalled`
error if the version is valid and in range but absent locally. Read-only. -/
def getPath (st : SvmState) (s : String) : Except SvmError String :=
  match parseVersion s with
  | none => .error .InvalidVersion
  | some v =>
    if Version.lt v st.minVersion || Version.lt st.maxVersion v then
      .error .UnsupportedVersion
    else if v ∈ st.installed then
      .ok (versionString v)
    else
      .error .NotInstalled

/-- The error the spec prescribes for a request that is unparsable or outside
the supported range (used to state the range-enforcement property). -/
def expectedRangeError (s : String) : SvmError :=
  match parseVersion s with
  | none => .InvalidVersion
  | some _ => .UnsupportedVersion

/-- A state-mutating version-manager operation. -/
inductive SvmOp where
  | installOp (s : String)
  | removeOp (s : String)

/-- Apply one operation to one manager state, keeping the resulting state
(errors leave the state unchanged). -/
def stepOp (st : SvmState) : SvmOp → SvmState
  | .installOp s => (install st s).1
  | .removeOp s => (remove st s).1

/-- Modelled from the spec: several manager instances rooted at distinct
install directories share the machine; the world maps each root directory to
the manager state stored under it. -/
def SvmWorld : Type := String → SvmState

/-- Run a sequence of operations against the manager rooted at `root`:
only that root's state is rewritten. -/
def applyOps (w : SvmWorld) (root : String) : List SvmOp → SvmWorld
  | [] => w
  | op :: ops => applyOps (fun r => if r = root then stepOp (w r) op else w r) root ops

/-! ## AST IR: `RevertStatement` (woke/ast/ir/statement/revert_statement.py) -/

/-- Modelled from the spec: an owned expression subtree (the `FunctionCall`
`error_call` and its sub-expressions; `FunctionCall` is absent from src/).
Each node carries its own contribution to the `ModifiesStateFlag` bitmask
(a Python `IntFlag`, here a `Nat` combined with bitwise or) and exclusively
owns its children. -/
inductive ExprNode where
  | mk (ownFlags : Nat) (children : List ExprNode)

/-- The children of an expression node. -/
def ExprNode.children : ExprNode → List ExprNode
  | .mk _ cs => cs

/-- The node's own contribution to the modifies-state bitmask. -/
def ExprNode.ownFlags : ExprNode → Nat
  | .mk f _ => f

mutual

/-- Modelled from the spec: every node's traversal operation yields itself
followed by all descendants in pre-order (spec §4.3); this is the expression
subtree's `__iter__`. -/
def ExprNode.preorder : ExprNode → List ExprNode
  | .mk f cs => .mk f cs :: preorderList cs

/-- Pre-order traversal of a forest, left to right. -/
def preorderList : List ExprNode → List ExprNode
  | [] => []
  | e :: es => e.preorder ++ preorderList es

end

mutual

/-- Number of nodes of a subtree. -/
def ExprNode.size : ExprNode → Nat
  | .mk _ cs => 1 + sizeList cs

/-- Number of nodes of a forest. -/
def sizeList : List ExprNode → Nat
  | [] => 0
  | e :: es => e.size + sizeList es

end

mutual

/-- Modelled from the spec: the memoized semantic property is computed by
folding the same property over all syntactically owned sub-expressions
(spec §4.3); for the expression subtree this is `modifies_state`, the
bitwise-or fold of the node's own flags with its children's values. -/
def ExprNode.modifiesState : ExprNode → Nat
  | .mk f cs => Nat.lor f (modifiesStateList cs)

/-- Bitwise-or fold of `modifiesState` over a forest. -/
def modifiesStateList : List ExprNode → Nat
  | [] => 0
  | e :: es => Nat.lor e.modifiesState (modifiesStateList es)

end

/-- `e` is a node of the subtree rooted at `root` (root itself included). -/
inductive InSubtree : ExprNode → ExprNode → Prop where
  | refl (e : ExprNode) : InSubtree e e
  | step {x c : ExprNode} {f : Nat} {cs : List ExprNode} :
      c ∈ cs → InSubtree x c → InSubtree x (.mk f cs)

/-- The `RevertStatement` IR node, as constructed by `__init__`: it owns its
`error_call` subtree and an optional documentation string. -/
structure RevertStatement where
  errorCall : ExprNode
  documentation : Option String

/-- The elements traversal yields: the revert statement itself, then
expression nodes. -/
inductive IrAbc where
  | stmt (r : RevertStatement)
  | expr (e : ExprNode)

/-- `RevertStatement.__iter__`: yield self, then yield from the `error_call`
subtree. Each new iteration runs the generator function afresh, so the
produced sequence is a pure function of the node: modelled as the list it
yields. -/
def revertIter (r : RevertStatement) : List IrAbc :=
  IrAbc.stmt r :: (r.errorCall.preorder).map IrAbc.expr

/-- `RevertStatement.modifies_state` (the computation under the cache):
`return self.error_call.modifies_state`. -/
def revertModifiesState (r : RevertStatement) : Nat :=
  r.errorCall.modifiesState

/-- The syntactically owned sub-expressions of a revert statement: exactly its
`error_call` (constructed and owned in `__init__`). -/
def revertOwnedSubExprs (r : RevertStatement) : List ExprNode :=
  [r.errorCall]

/-- A `RevertStatement` together with its `lru_cache` memoization cell for the
`modifies_state` property, instrumented with a computation counter. -/
structure MemoRevert where
  node : RevertStatement
  cache : Option Nat
  computeCount : Nat

/-- A freshly constructed node: empty cache, no computation performed yet. -/
def mkMemoRevert (r : RevertStatement) : MemoRevert :=
  { node := r, cache := none, computeCount := 0 }

/-- Reading the memoized `modifies_state` property: on a cache hit return the
cached value; on a miss run the underlying computation once, store it, and
bump the instrumentation counter. -/
def readModifiesState (m : MemoRevert) : Nat × MemoRevert :=
  match m.cache with
  | some v => (v, m)
  | none =>
    let v := revertModifiesState m.node
    (v, { m with cache := some v, computeCount := m.computeCount + 1 })

/-! ## Request document round-tripping (pydantic `extra="allow"`) -/

/-- A request document as a flat list of key/value pairs (field order kept). -/
def Document : Type := List (String × String)

/-- A parsed pydantic model under `SolcInputModel`'s configuration
`extra="allow"`: the declared fields are retained, and every unrecognized
field is kept verbatim in the model's extra bag. -/
structure ParsedModel where
  fields : List (String × String)
  extras : List (String × String)
deriving DecidableEq

/-- Parsing a document against a model with declared field set `known`:
recognized keys populate the declared fields, everything else goes, in order,
into the extra bag (`extra="allow"`). -/
def parseModel (known : List String) (doc : Document) : ParsedModel :=
  { fields := doc.filter (fun kv => decide (kv.1 ∈ known)),
    extras := doc.filter (fun kv => decide (kv.1 ∉ known)) }

/-- Re-serializing a parsed model: the declared fields followed by the extra
bag, each unrecognized field emitted unchanged. -/
def dumpModel (m : ParsedModel) : Document :=
  m.fields ++ m.extras

/-! ## Theorems -/

/-- C1: constructing a `SolcInputSource` with both `content` and `urls` set, or
with neither set, fails validation immediately (the construction function runs
no compiler); for every input where exactly one of the two is set,
construction succeeds. -/
theorem solcInputSource_content_urls_validation (k c : Option String)
    (u : Option (List String)) :
    (mkSolcInputSource k c u).isOk = true ↔
      (c.isSome = true ∧ u = none) ∨ (c = none ∧ u.isSome = true) := by
  cases c <;> cases u <;>
    simp [mkSolcInputSource, content_or_urls_set, Except.isOk, Except.toBool]

/-- C9: every field of the SolcInput model hierarchy is serialized under the
camel-cased form of its snake_case name, except the explicitly overridden
`viaIR` and `appendCBOR`, both of which differ from what the default
camel-casing would produce. -/
theorem wire_field_naming :
    (allSolcInputFields.all fun f =>
        wireName f ==
          (if f.1 == "via_IR" then "viaIR"
           else if f.1 == "append_CBOR" then "appendCBOR"
           else to_camel f.1)) = true
      ∧ to_camel "via_IR" ≠ "viaIR" ∧ to_camel "append_CBOR" ≠ "appendCBOR" :=
  ⟨by decide, by decide, by decide⟩

/-- C10: every SARIF result emitted by the results loop of `create_sarif_log`
carries the level `impact_to_level[impact]` of its detection's impact — a
fixed total mapping sending HIGH, MEDIUM and LOW to "error", WARNING to
"warning" and INFO to "note". -/
theorem sarif_level_from_impact (ds : List (String × List SarifResultInput))
    (r : SarifResultInput) (lvl : String)
    (h : (r, lvl) ∈ createSarifResults ds) :
    lvl = impact_to_level r.impact ∧
      impact_to_level .high = "error" ∧ impact_to_level .medium = "error" ∧
      impact_to_level .low = "error" ∧ impact_to_level .warning = "warning" ∧
      impact_to_level .info = "note" := by
  refine ⟨?_, rfl, rfl, rfl, rfl, rfl⟩
  simp only [createSarifResults, List.mem_flatten, List.mem_map] at h
  obtain ⟨l, ⟨d, hd, hl⟩, hmem⟩ := h
  subst hl
  obtain ⟨r', hr', heq⟩ := List.mem_map.mp hmem
  have h1 : r' = r := congrArg Prod.fst heq
  subst h1
  exact (congrArg Prod.snd heq).symm

/-- Witness for C10: a concrete high-impact detection produces level "error". -/
theorem sarif_level_witness :
    "error" = impact_to_level (SarifResultInput.mk .high "m").impact ∧
      impact_to_level .high = "error" ∧ impact_to_level .medium = "error" ∧
      impact_to_level .low = "error" ∧ impact_to_level .warning = "warning" ∧
      impact_to_level .info = "note" :=
  sarif_level_from_impact [("det", [⟨.high, "m"⟩])] ⟨.high, "m"⟩ "error" (by decide)

/-- C6: for every request document and every declared field set, parsing the
document and re-serializing it preserves the unrecognized fields unchanged
(same keys, same values, same order and multiplicity). -/
theorem unknown_fields_roundtrip (known : List String) (doc : Document) :
    (dumpModel (parseModel known doc)).filter (fun kv => decide (kv.1 ∉ known)) =
      doc.filter (fun kv => decide (kv.1 ∉ known)) := by
  simp only [dumpModel, parseModel, List.filter_append, List.filter_filter]
  induction doc with
  | nil => rfl
  | cons kv doc ih =>
    by_cases h : kv.1 ∈ known <;> simp [h, ih]

/-- C5: on a freshly constructed `RevertStatement`, reading the memoized
`modifies_state` property twice yields the identical value, and the underlying
computation runs exactly once (the counter ends at 1 and the cache holds the
returned value). -/
theorem modifies_state_memoized_once (m : MemoRevert)
    (hc : m.cache = none) (hn : m.computeCount = 0) :
    (readModifiesState m).1 = (readModifiesState (readModifiesState m).2).1 ∧
      (readModifiesState (readModifiesState m).2).2.computeCount = 1 ∧
      (readModifiesState (readModifiesState m).2).2.cache =
        some (readModifiesState m).1 ∧
      (readModifiesState m).1 = revertModifiesState m.node := by
  simp [readModifiesState, hc, hn]

/-- Witness for C5: a concrete fresh node, both hypotheses discharged by rfl. -/
theorem modifies_state_memoized_once_witness :
    (readModifiesState (mkMemoRevert ⟨ExprNode.mk 3 [], none⟩)).1 =
        (readModifiesState
          (readModifiesState (mkMemoRevert ⟨ExprNode.mk 3 [], none⟩)).2).1 ∧
      (readModifiesState
          (readModifiesState (mkMemoRevert ⟨ExprNode.mk 3 [], none⟩)).2).2.computeCount = 1 ∧
      (readModifiesState
          (readModifiesState (mkMemoRevert ⟨ExprNode.mk 3 [], none⟩)).2).2.cache =
        some (readModifiesState (mkMemoRevert ⟨ExprNode.mk 3 [], none⟩)).1 ∧
      (readModifiesState (mkMemoRevert ⟨ExprNode.mk 3 [], none⟩)).1 =
        revertModifiesState (mkMemoRevert ⟨ExprNode.mk 3 [], none⟩).node :=
  modifies_state_memoized_once _ rfl rfl

/-- C7: a revert statement's `modifies_state` equals the bitwise-or fold of the
same property over its syntactically owned sub-expressions, i.e. the
`modifies_state` of its owned `error_call` subtree. -/
theorem revert_modifies_state_owned_fold (r : RevertStatement) :
    revertModifiesState r = modifiesStateList (revertOwnedSubExprs r) ∧
      revertModifiesState r = r.errorCall.modifiesState := by
  refine ⟨?_, rfl⟩
  simp only [revertModifiesState, revertOwnedSubExprs, modifiesStateList]
  exact (Nat.or_zero _).symm

/-- C2: for a supported version, two sequential installs starting from an
empty install root succeed, the second being a no-op, and leave exactly one
artifact for that version; a subsequent remove empties `list_installed()`, and
`get_path` then fails `NotInstalled` (not `UnsupportedVersion`). -/
theorem svm_install_idempotent_remove_scenario (mn mx : Version)
    (av : List Version) (s : String) (v : Version)
    (hp : parseVersion s = some v)
    (h1 : Version.lt v mn = false) (h2 : Version.lt mx v = false) :
    (install ⟨mn, mx, av, []⟩ s).2 = none ∧
    (install (install ⟨mn, mx, av, []⟩ s).1 s).1 = (install ⟨mn, mx, av, []⟩ s).1 ∧
    (install (install ⟨mn, mx, av, []⟩ s).1 s).2 = none ∧
    (listInstalled (install (install ⟨mn, mx, av, []⟩ s).1 s).1).count v = 1 ∧
    (remove (install (install ⟨mn, mx, av, []⟩ s).1 s).1 s).2 = none ∧
    listInstalled (remove (install (install ⟨mn, mx, av, []⟩ s).1 s).1 s).1 = [] ∧
    getPath (remove (install (install ⟨mn, mx, av, []⟩ s).1 s).1 s).1 s =
      .error .NotInstalled := by
  simp [install, remove, getPath, listInstalled, hp, h1, h2]

/-- Witness for C2: the concrete "0.8.10" scenario of the spec and of
`test_basic_usage`, with range [0.3.6, 0.8.30]. -/
theorem svm_install_idempotent_remove_witness :
    (install ⟨⟨0,3,6⟩, ⟨0,8,30⟩, [], []⟩ "0.8.10").2 = none ∧
    (install (install ⟨⟨0,3,6⟩, ⟨0,8,30⟩, [], []⟩ "0.8.10").1 "0.8.10").1 =
      (install ⟨⟨0,3,6⟩, ⟨0,8,30⟩, [], []⟩ "0.8.10").1 ∧
    (install (install ⟨⟨0,3,6⟩, ⟨0,8,30⟩, [], []⟩ "0.8.10").1 "0.8.10").2 = none ∧
    (listInstalled
        (install (install ⟨⟨0,3,6⟩, ⟨0,8,30⟩, [], []⟩ "0.8.10").1 "0.8.10").1).count
      ⟨0,8,10⟩ = 1 ∧
    (remove (install (install ⟨⟨0,3,6⟩, ⟨0,8,30⟩, [], []⟩ "0.8.10").1 "0.8.10").1
      "0.8.10").2 = none ∧
    listInstalled
      (remove (install (install ⟨⟨0,3,6⟩, ⟨0,8,30⟩, [], []⟩ "0.8.10").1 "0.8.10").1
        "0.8.10").1 = [] ∧
    getPath
      (remove (install (install ⟨⟨0,3,6⟩, ⟨0,8,30⟩, [], []⟩ "0.8.10").1 "0.8.10").1
        "0.8.10").1 "0.8.10" = .error .NotInstalled :=
  svm_install_idempotent_remove_scenario ⟨0,3,6⟩ ⟨0,8,30⟩ [] "0.8.10" ⟨0,8,10⟩
    (by decide) (by decide) (by decide)

/-- C3: for every version string that is unparsable, or parses to a version
outside the supported range, `install` and `get_path` fail with
`InvalidVersion` respectively `UnsupportedVersion`, and the installed set is
unchanged in either case. -/
theorem svm_range_and_parse_enforcement (st : SvmState) (s : String)
    (h : parseVersion s = none ∨
      ∃ v, parseVersion s = some v ∧
        (Version.lt v st.minVersion || Version.lt st.maxVersion v) = true) :
    (install st s).1 = st ∧
    (install st s).2 = some (expectedRangeError s) ∧
    getPath st s = .error (expectedRangeError s) ∧
    listInstalled (install st s).1 = listInstalled st := by
  rcases h with h | ⟨v, hv, hr⟩
  · simp [install, getPath, expectedRangeError, h]
  · simp [install, getPath, expectedRangeError, hv, hr]

/-- Witness for C3: the unparsable string "0.8.a" of `test_install_invalid_version`. -/
theorem svm_range_enforcement_witness :
    (install ⟨⟨0,3,6⟩, ⟨0,8,30⟩, [], []⟩ "0.8.a").1 = ⟨⟨0,3,6⟩, ⟨0,8,30⟩, [], []⟩ ∧
    (install ⟨⟨0,3,6⟩, ⟨0,8,30⟩, [], []⟩ "0.8.a").2 =
      some (expectedRangeError "0.8.a") ∧
    getPath ⟨⟨0,3,6⟩, ⟨0,8,30⟩, [], []⟩ "0.8.a" = .error (expectedRangeError "0.8.a") ∧
    listInstalled (install ⟨⟨0,3,6⟩, ⟨0,8,30⟩, [], []⟩ "0.8.a").1 =
      listInstalled ⟨⟨0,3,6⟩, ⟨0,8,30⟩, [], []⟩ :=
  svm_range_and_parse_enforcement _ _ (Or.inl (by decide))

/-- Running operations against the manager rooted at one directory never
rewrites the state stored under a different root. -/
theorem applyOps_other_root (root1 root2 : String) (hne : root2 ≠ root1) :
    ∀ (ops : List SvmOp) (w : SvmWorld), applyOps w root1 ops root2 = w root2 := by
  intro ops
  induction ops with
  | nil => intro w; rfl
  | cons op ops ih =>
    intro w
    rw [applyOps, ih]
    simp [hne]

/-- C8: for every pair of manager instances rooted at distinct install
directories, every sequence of install/remove operations on one leaves the
other's `list_installed()` and available sets unchanged. -/
theorem svm_instance_isolation (w : SvmWorld) (root1 root2 : String)
    (hne : root1 ≠ root2) (ops : List SvmOp) :
    listInstalled (applyOps w root1 ops root2) = listInstalled (w root2) ∧
    (applyOps w root1 ops root2).available = (w root2).available := by
  rw [applyOps_other_root root1 root2 (Ne.symm hne) ops w]
  exact ⟨rfl, rfl⟩

/-- Witness for C8: an install under one concrete root leaves another concrete
root's state untouched. -/
theorem svm_instance_isolation_witness :
    listInstalled (applyOps (fun _ => ⟨⟨0,3,6⟩, ⟨0,8,30⟩, [], []⟩) "/home/a/.wake"
        [SvmOp.installOp "0.8.10"] "/home/b/.wake") =
      listInstalled ((fun _ => (⟨⟨0,3,6⟩, ⟨0,8,30⟩, [], []⟩ : SvmState)) "/home/b/.wake") ∧
    ((applyOps (fun _ => ⟨⟨0,3,6⟩, ⟨0,8,30⟩, [], []⟩) "/home/a/.wake"
        [SvmOp.installOp "0.8.10"] "/home/b/.wake")).available =
      ((fun _ => (⟨⟨0,3,6⟩, ⟨0,8,30⟩, [], []⟩ : SvmState)) "/home/b/.wake").available :=
  svm_instance_isolation _ "/home/a/.wake" "/home/b/.wake" (by decide) _

/-- Membership in the pre-order traversal of a forest. -/
theorem mem_preorderList (x : ExprNode) (es : List ExprNode) :
    x ∈ preorderList es ↔ ∃ e ∈ es, x ∈ e.preorder := by
  induction es with
  | nil => simp [preorderList]
  | cons e es ih => simp [preorderList, ih]

/-- The pre-order traversal of a subtree has exactly one entry per node. -/
theorem length_preorder_aux (n : Nat) :
    (∀ e : ExprNode, sizeOf e ≤ n → e.preorder.length = e.size) ∧
      (∀ es : List ExprNode, sizeOf es ≤ n → (preorderList es).length = sizeList es) := by
  induction n with
  | zero =>
    constructor
    · intro e he; obtain ⟨f, cs⟩ := e; simp at he
    · intro es hes; cases es <;> simp at hes
  | succ n ih =>
    constructor
    · intro e he
      obtain ⟨f, cs⟩ := e
      simp only [ExprNode.preorder, ExprNode.size, List.length_cons]
      have : sizeOf cs ≤ n := by simp at he; omega
      rw [ih.2 cs this]
      omega
    · intro es hes
      cases es with
      | nil => simp [preorderList, sizeList]
      | cons e es =>
        simp only [preorderList, sizeList, List.length_append]
        have h1 : sizeOf e ≤ n := by simp at hes; omega
        have h2 : sizeOf es ≤ n := by simp at hes; omega
        rw [ih.1 e h1, ih.2 es h2]

/-- A node appears in a subtree's pre-order traversal exactly when it is a
node of that subtree. -/
theorem mem_preorder_aux (n : Nat) :
    ∀ e x : ExprNode, sizeOf e ≤ n → (x ∈ e.preorder ↔ InSubtree x e) := by
  induction n with
  | zero =>
    intro e x he
    obtain ⟨f, cs⟩ := e
    simp at he
  | succ n ih =>
    intro e x he
    obtain ⟨f, cs⟩ := e
    have hcs : ∀ c ∈ cs, sizeOf c ≤ n := by
      intro c hc
      have hlt := List.sizeOf_lt_of_mem hc
      simp at he
      omega
    simp only [ExprNode.preorder]
    constructor
    · intro h
      rcases List.mem_cons.mp h with h | h
      · exact h ▸ InSubtree.refl _
      · obtain ⟨c, hc, hx⟩ := (mem_preorderList x cs).mp h
        exact InSubtree.step hc ((ih c x (hcs c hc)).mp hx)
    · intro h
      cases h with
      | refl => exact List.mem_cons_self _ _
      | step hc hx =>
        exact List.mem_cons_of_mem _
          ((mem_preorderList x cs).mpr ⟨_, hc, (ih _ x (hcs _ hc)).mpr hx⟩)

/-- C4: a revert statement's traversal yields the node itself first, then
exactly the nodes of its owned `error_call` subtree in pre-order, one entry
per node (finite: its length is one plus the subtree size). The traversal is
a pure function of the node, so each new iteration yields this same sequence
afresh rather than exhausting a cursor. -/
theorem revert_iter_self_then_descendants (r : RevertStatement) :
    (revertIter r).head? = some (IrAbc.stmt r) ∧
    (∀ e : ExprNode, IrAbc.expr e ∈ revertIter r ↔ InSubtree e r.errorCall) ∧
    (revertIter r).length = 1 + r.errorCall.size := by
  refine ⟨rfl, ?_, ?_⟩
  · intro e
    simp only [revertIter, List.mem_cons, List.mem_map]
    constructor
    · rintro (h | ⟨a, ha, heq⟩)
      · cases h
      · cases heq
        exact (mem_preorder_aux (sizeOf r.errorCall) _ _ (le_refl _)).mp ha
    · intro h
      exact Or.inr ⟨e, (mem_preorder_aux (sizeOf r.errorCall) _ _ (le_refl _)).mpr h, rfl⟩
  · simp only [revertIter, List.length_cons, List.length_map]
    rw [(length_preorder_aux (sizeOf r.errorCall)).1 r.errorCall (le_refl _)]
    omega

end Wake
